import Mathlib

/-!
Verification of the scheduler-queue subsystem (`scrapy/squeues.py`).

The Python source composes three layers over the `queuelib` backing
stores: a serialization layer (`_SerializationQueue`), a request-record
adapter (`_DiskRequestQueue`), and a directory provisioner
(`_with_mkdir`).  The `queuelib` stores, the `pickle`/`marshal` codecs
and the filesystem are external to the source unit; they are modelled
here from the specification, while the three layers above are translated
directly from the source.

Python byte strings are modelled as lists of naturals (one entry per
byte); Python text strings are modelled as lists of naturals (one entry
per code point).  Python truthiness of a byte string is emptiness.
-/

namespace Squeues

/-- Python byte strings, modelled as lists of naturals.  A byte string is
falsy exactly when it is empty. -/
abbrev Bytes := List Nat

/-- Python exceptions relevant to this subsystem.  The constructors
mirror the Python exception classes that appear in the source:
`pickle.PicklingError`, `AttributeError`, `TypeError`, `ValueError`
(with its `__cause__` chain), `NotImplementedError`, `FileExistsError`,
`FileNotFoundError`.  `recordConversionError` is modelled from the spec:
the spec postulates a distinct `RecordConversionError` class, which the
source never defines nor raises; the constructor exists so that the
spec's claim about it can be stated.  `otherError` stands for any other
exception class. -/
inductive PyErr where
  | picklingError (msg : String)
  | attributeError (msg : String)
  | typeError (msg : String)
  | valueError (msg : String) (cause : Option PyErr)
  | notImplementedError (msg : String)
  | fileExistsError (msg : String)
  | fileNotFoundError (msg : String)
  | recordConversionError (msg : String)
  | otherError (msg : String)

/-- Python `str(e)`: the message carried by the exception. -/
def PyErr.str : PyErr → String
  | .picklingError m => m
  | .attributeError m => m
  | .typeError m => m
  | .valueError m _ => m
  | .notImplementedError m => m
  | .fileExistsError m => m
  | .fileNotFoundError m => m
  | .recordConversionError m => m
  | .otherError m => m

/-- Tests whether an exception is one of the three classes caught by
`_pickle_serialize` (source line 92): `pickle.PicklingError`,
`AttributeError`, `TypeError`. -/
def PyErr.isPickleCaught : PyErr → Bool
  | .picklingError _ => true
  | .attributeError _ => true
  | .typeError _ => true
  | _ => false

/-- Tests for the spec's `RecordConversionError` class. -/
def PyErr.isRecordConversionError : PyErr → Bool
  | .recordConversionError _ => true
  | _ => false

/-- Queue ordering mode, fixed per handle at creation. -/
inductive Mode where
  | fifo
  | lifo
deriving DecidableEq

/-- Modelled from the spec: a `queuelib` backing store (the source only
imports `queue.FifoDiskQueue`, `queue.LifoDiskQueue`,
`queue.FifoMemoryQueue`, `queue.LifoMemoryQueue`; their code is not part
of this source unit).  Per the spec it is an ordered container with two
orderings over one medium-independent item list: FIFO appends at the
tail and removes from the head, LIFO appends at the tail and removes
from the tail.  `supportsPeek` records whether the underlying class
implements `peek` (older `queuelib` classes do not, in which case
calling `peek` raises `AttributeError`).  `items` is in push order,
oldest first. -/
structure Store (α : Type) where
  mode : Mode
  supportsPeek : Bool
  items : List α
deriving DecidableEq

/-- Modelled from the spec: store push appends at the tail and never
reorders previously pushed items. -/
def Store.push (q : Store α) (x : α) : Store α :=
  { q with items := q.items ++ [x] }

/-- Modelled from the spec: store pop removes and returns the next item
per ordering (head for FIFO, tail for LIFO) and returns `none`, leaving
the store unchanged, when the store is empty. -/
def Store.rawPop (q : Store α) : Option α × Store α :=
  match q.mode with
  | .fifo =>
    match q.items with
    | [] => (none, q)
    | x :: tl => (some x, { q with items := tl })
  | .lifo =>
    match q.items.reverse with
    | [] => (none, q)
    | x :: rev => (some x, { q with items := rev.reverse })

/-- Modelled from the spec: store peek returns what pop would return,
without removing it; a store whose class does not implement `peek`
raises `AttributeError` at the call site. -/
def Store.rawPeek (q : Store α) : Except PyErr (Option α) :=
  if q.supportsPeek then .ok (q.rawPop).1
  else .error (.attributeError "peek")

/-- Pushes a whole list of items in order. -/
def Store.pushAll (q : Store α) : List α → Store α
  | [] => q
  | x :: xs => (q.push x).pushAll xs

/-- Pops `n` times, collecting the successfully popped items in order. -/
def Store.popN (q : Store α) : Nat → List α × Store α
  | 0 => ([], q)
  | n + 1 =>
    match q.rawPop with
    | (none, q1) => ([], q1)
    | (some x, q1) =>
      let r := q1.popN n
      (x :: r.1, r.2)

/-- The order in which a store with mode `m` yields a list of items that
was pushed in the list's order. -/
def order (m : Mode) (l : List α) : List α :=
  match m with
  | .fifo => l
  | .lifo => l.reverse

/-- A serialize/deserialize pair, as installed on the serialization
queue classes via `serialize = staticmethod(...)` and
`deserialize = staticmethod(...)` (source lines 96-113).  `serialize`
may raise; `deserialize` is applied only to truthy stored byte strings. -/
structure Codec (α : Type) where
  serialize : α → Except PyErr Bytes
  deserialize : Bytes → α

/-- `_SerializationQueue.push` (source lines 32-33):
`super().push(self.serialize(obj))`.  If `serialize` raises, the
exception propagates and the store push is never reached. -/
def SerializationQueue.push (c : Codec α) (q : Store Bytes) (obj : α) :
    Except PyErr Unit × Store Bytes :=
  match c.serialize obj with
  | .error e => (.error e, q)
  | .ok b => (.ok (), q.push b)

/-- `_SerializationQueue.pop` (source lines 35-37):
`s = super().pop(); return self.deserialize(s) if s else None`.
`s` is falsy when it is `None` (empty store) or the empty byte string. -/
def SerializationQueue.pop (c : Codec α) (q : Store Bytes) :
    Option α × Store Bytes :=
  match q.rawPop with
  | (none, q1) => (none, q1)
  | (some s, q1) => (if s.isEmpty then none else some (c.deserialize s), q1)

/-- `_SerializationQueue.peek` (source lines 39-44): calls
`super().peek()`, translating `AttributeError` into
`NotImplementedError`; a truthy result is deserialized, a falsy one
becomes `None`. -/
def SerializationQueue.peek (c : Codec α) (q : Store Bytes) :
    Except PyErr (Option α) :=
  match q.rawPeek with
  | .error (.attributeError _) =>
    .error (.notImplementedError
      "The underlying queue class does not implement peek")
  | .error e => .error e
  | .ok none => .ok none
  | .ok (some s) =>
    .ok (if s.isEmpty then none else some (c.deserialize s))

/-- `_MemoryQueue.peek` (source lines 55-59): calls `super().peek()`,
translating `AttributeError` into `NotImplementedError`. -/
def MemoryQueue.peek (q : Store α) : Except PyErr (Option α) :=
  match q.rawPeek with
  | .error (.attributeError _) =>
    .error (.notImplementedError
      "The underlying queue class does not implement peek")
  | .error e => .error e
  | .ok s => .ok s

/-- The injected bidirectional work-item/record converter pair
(`request_to_dict` / `request_from_dict`, imported from outside this
source unit).  `fromRecord` may raise on a malformed record.  `falsy`
is Python truthiness of a record value (an empty dict is falsy). -/
structure Conv (ι ρ : Type) where
  toRecord : ι → ρ
  fromRecord : ρ → Except PyErr ι
  falsy : ρ → Bool

/-- `_DiskRequestQueue.push` (source lines 74-76):
`request = request_to_dict(request, self.spider); return super().push(request)`. -/
def DiskRequestQueue.push (c : Codec ρ) (cv : Conv ι ρ) (q : Store Bytes)
    (item : ι) : Except PyErr Unit × Store Bytes :=
  SerializationQueue.push c q (cv.toRecord item)

/-- `_DiskRequestQueue.pop` (source lines 78-80):
`request = super().pop(); return request_from_dict(request, self.spider) if request else None`.
The super pop runs first, so the slot is consumed even when
`request_from_dict` raises, and the raised exception propagates as-is. -/
def DiskRequestQueue.pop (c : Codec ρ) (cv : Conv ι ρ) (q : Store Bytes) :
    Except PyErr (Option ι) × Store Bytes :=
  match SerializationQueue.pop c q with
  | (none, q1) => (.ok none, q1)
  | (some r, q1) =>
    if cv.falsy r then (.ok none, q1)
    else
      match cv.fromRecord r with
      | .ok item => (.ok (some item), q1)
      | .error e => (.error e, q1)

/-- `_DiskRequestQueue.peek` (source lines 82-84): like pop but through
`super().peek()`, which may raise `NotImplementedError`. -/
def DiskRequestQueue.peek (c : Codec ρ) (cv : Conv ι ρ) (q : Store Bytes) :
    Except PyErr (Option ι) :=
  match SerializationQueue.peek c q with
  | .error e => .error e
  | .ok none => .ok none
  | .ok (some r) =>
    if cv.falsy r then .ok none
    else
      match cv.fromRecord r with
      | .ok item => .ok (some item)
      | .error e => .error e

/-- `_pickle_serialize` (source lines 87-93): calls `pickle.dumps`,
re-raising `pickle.PicklingError`, `AttributeError` and `TypeError` as
`ValueError(str(e))` with the original exception as cause; any other
exception propagates unchanged.  `dumps` is a parameter because
`pickle.dumps` is outside this source unit. -/
def pickle_serialize (dumps : α → Except PyErr Bytes) (obj : α) :
    Except PyErr Bytes :=
  match dumps obj with
  | .ok b => .ok b
  | .error e =>
    if e.isPickleCaught then .error (.valueError e.str (some e))
    else .error e

/-- The codec installed on `_PickleFifoSerializationDiskQueue` and
`_PickleLifoSerializationDiskQueue` (source lines 96-103):
`serialize = staticmethod(_pickle_serialize)`,
`deserialize = staticmethod(pickle.loads)`. -/
def pickleCodec (dumps : α → Except PyErr Bytes) (loads : Bytes → α) :
    Codec α :=
  { serialize := pickle_serialize dumps, deserialize := loads }

/-- The codec installed on `_MarshalFifoSerializationDiskQueue` and
`_MarshalLifoSerializationDiskQueue` (source lines 106-113):
`serialize = staticmethod(marshal.dumps)`,
`deserialize = staticmethod(marshal.loads)` — no wrapping of any kind. -/
def marshalCodec (dumps : α → Except PyErr Bytes) (loads : Bytes → α) :
    Codec α :=
  { serialize := dumps, deserialize := loads }

/-- Pushes a whole list of values through the serialization layer,
stopping at the first serialization failure. -/
def SerializationQueue.pushAll (c : Codec α) (q : Store Bytes) :
    List α → Except PyErr (Store Bytes)
  | [] => .ok q
  | v :: vs =>
    match SerializationQueue.push c q v with
    | (.ok _, q1) => SerializationQueue.pushAll c q1 vs
    | (.error e, _) => .error e

/-- Pops `n` times through the serialization layer, collecting each
pop's result (empty signal included) in order. -/
def SerializationQueue.popN (c : Codec α) (q : Store Bytes) :
    Nat → List (Option α) × Store Bytes
  | 0 => ([], q)
  | n + 1 =>
    let p := SerializationQueue.pop c q
    let r := SerializationQueue.popN c p.2 n
    (p.1 :: r.1, r.2)

/-- Python text strings, modelled as lists of code points. -/
abbrev PyStr := List Nat

mutual
/-- Modelled from the spec: the `FlatRecord` value universe the codecs
must handle — string, bytes, integer, float, null, sequence, and
field-name-to-value mapping.  A float is carried as its IEEE-754
binary64 bit pattern (a natural below `2 ^ 64`): the codecs store and
restore the pattern bit-for-bit, and the roundtrip claims need only the
pattern and IEEE equality semantics on it, not float arithmetic.
`pickle.dumps`/`pickle.loads` and `marshal.dumps`/`marshal.loads`
themselves are outside this source unit; the spec requires a codec on
this universe whose deserializer is the exact left inverse of its
serializer, realized below by `encValue`/`decValue`. -/
inductive Value where
  | vstr (s : PyStr)
  | vbytes (b : Bytes)
  | vint (n : Int)
  | vfloat (bits : Nat)
  | vnull
  | vseq (l : VList)
  | vmap (m : VMap)

/-- A sequence of values. -/
inductive VList where
  | nil
  | cons (v : Value) (tl : VList)

/-- A mapping from string field names to values, as an ordered field
list. -/
inductive VMap where
  | nil
  | cons (k : PyStr) (v : Value) (tl : VMap)
end

/-- Encodes an integer as a natural: nonnegative integers to evens,
negative ones to odds. -/
def encInt (n : Int) : Nat :=
  if n < 0 then 2 * n.natAbs - 1 else 2 * n.natAbs

/-- Decodes `encInt`. -/
def decInt (m : Nat) : Int :=
  if m % 2 = 0 then Int.ofNat (m / 2) else Int.negSucc (m / 2)

mutual
/-- Modelled from the spec: the byte encoding of a value — a tag byte
followed by the payload; sequences and mappings are terminator-delimited
(terminator 9), mapping entries carry tag 8. -/
def encValue : Value → Bytes
  | .vstr s => 0 :: s.length :: s
  | .vbytes b => 1 :: b.length :: b
  | .vint n => [2, encInt n]
  | .vnull => [3]
  | .vseq l => 4 :: encVList l
  | .vmap m => 5 :: encVMap m
  | .vfloat a => [6, a]

/-- Encodes a sequence: the encoded elements followed by terminator 9. -/
def encVList : VList → Bytes
  | .nil => [9]
  | .cons v tl => encValue v ++ encVList tl

/-- Encodes a mapping: entries `8 :: keyLength :: key ++ value`,
followed by terminator 9. -/
def encVMap : VMap → Bytes
  | .nil => [9]
  | .cons k v tl => 8 :: k.length :: (k ++ encValue v ++ encVMap tl)
end

mutual
/-- Fuel required to parse an encoded value: its nesting depth. -/
def depthValue : Value → Nat
  | .vseq l => depthVList l + 1
  | .vmap m => depthVMap m + 1
  | _ => 1

/-- Fuel required to parse an encoded sequence tail. -/
def depthVList : VList → Nat
  | .nil => 1
  | .cons v tl => max (depthValue v) (depthVList tl) + 1

/-- Fuel required to parse an encoded mapping tail. -/
def depthVMap : VMap → Nat
  | .nil => 1
  | .cons _ v tl => max (depthValue v) (depthVMap tl) + 1
end

mutual
/-- Parses one encoded value from the front of a byte list, returning
it with the unconsumed remainder; the fuel bounds the nesting depth. -/
def parseValue : Nat → Bytes → Option (Value × Bytes)
  | 0, _ => none
  | _ + 1, [] => none
  | fuel + 1, t :: rest =>
    if t = 0 then
      match rest with
      | [] => none
      | len :: rest1 =>
        if (rest1.take len).length = len then
          some (.vstr (rest1.take len), rest1.drop len)
        else none
    else if t = 1 then
      match rest with
      | [] => none
      | len :: rest1 =>
        if (rest1.take len).length = len then
          some (.vbytes (rest1.take len), rest1.drop len)
        else none
    else if t = 2 then
      match rest with
      | [] => none
      | n :: rest1 => some (.vint (decInt n), rest1)
    else if t = 3 then some (.vnull, rest)
    else if t = 4 then
      match parseVList fuel rest with
      | some (l, rest1) => some (.vseq l, rest1)
      | none => none
    else if t = 5 then
      match parseVMap fuel rest with
      | some (m, rest1) => some (.vmap m, rest1)
      | none => none
    else if t = 6 then
      match rest with
      | [] => none
      | a :: rest1 => some (.vfloat a, rest1)
    else none

/-- Parses an encoded sequence tail up to its terminator. -/
def parseVList : Nat → Bytes → Option (VList × Bytes)
  | 0, _ => none
  | _ + 1, [] => none
  | fuel + 1, t :: rest =>
    if t = 9 then some (.nil, rest)
    else
      match parseValue fuel (t :: rest) with
      | some (v, rest1) =>
        match parseVList fuel rest1 with
        | some (tl, rest2) => some (.cons v tl, rest2)
        | none => none
      | none => none

/-- Parses an encoded mapping tail up to its terminator. -/
def parseVMap : Nat → Bytes → Option (VMap × Bytes)
  | 0, _ => none
  | _ + 1, [] => none
  | fuel + 1, t :: rest =>
    if t = 9 then some (.nil, rest)
    else if t = 8 then
      match rest with
      | [] => none
      | klen :: rest1 =>
        if (rest1.take klen).length = klen then
          match parseValue fuel (rest1.drop klen) with
          | some (v, rest2) =>
            match parseVMap fuel rest2 with
            | some (tl, rest3) => some (.cons (rest1.take klen) v tl, rest3)
            | none => none
          | none => none
        else none
    else none
end

/-- Modelled from the spec: the codec's serializer on the `FlatRecord`
universe — total, as the spec requires for any value the adapter can
produce. -/
def valueSerialize (v : Value) : Except PyErr Bytes := .ok (encValue v)

/-- Modelled from the spec: the codec's deserializer, the left inverse
of `valueSerialize` on the bytes it produced.  On bytes the serializer
never produced the spec leaves behavior to a fatal corruption error;
the model returns `vnull` there. -/
def decValue (b : Bytes) : Value :=
  match parseValue b.length b with
  | some (v, []) => v
  | _ => .vnull

/-- The modelled structured-object codec as a `Codec`. -/
def valueCodec : Codec Value :=
  { serialize := valueSerialize, deserialize := decValue }

theorem decInt_encInt (n : Int) : decInt (encInt n) = n := by
  rcases n with k | k
  · have h1 : encInt (Int.ofNat k) = 2 * k := by
      unfold encInt
      rw [if_neg (by simp [Int.ofNat_eq_coe])]
      simp
    rw [h1]
    unfold decInt
    rw [if_pos (by omega)]
    congr 1
    omega
  · have h1 : encInt (Int.negSucc k) = 2 * k + 1 := by
      unfold encInt
      rw [if_pos (Int.negSucc_lt_zero k)]
      simp [Int.natAbs_negSucc]
      omega
    rw [h1]
    unfold decInt
    rw [if_neg (by omega)]
    congr 1
    omega

theorem one_le_depthValue (v : Value) : 1 ≤ depthValue v := by
  cases v <;> simp [depthValue]

theorem one_le_depthVList (l : VList) : 1 ≤ depthVList l := by
  cases l <;> simp [depthVList]

theorem one_le_depthVMap (m : VMap) : 1 ≤ depthVMap m := by
  cases m <;> simp [depthVMap]

theorem encValue_head (v : Value) : ∃ t r, encValue v = t :: r ∧ t ≤ 6 := by
  cases v with
  | vstr s => exact ⟨0, s.length :: s, rfl, by omega⟩
  | vbytes b => exact ⟨1, b.length :: b, rfl, by omega⟩
  | vint n => exact ⟨2, [encInt n], rfl, by omega⟩
  | vnull => exact ⟨3, [], rfl, by omega⟩
  | vseq l => exact ⟨4, encVList l, rfl, by omega⟩
  | vmap m => exact ⟨5, encVMap m, rfl, by omega⟩
  | vfloat a => exact ⟨6, [a], rfl, by omega⟩

theorem encValue_ne_nil (v : Value) : encValue v ≠ [] := by
  obtain ⟨t, r, he, _⟩ := encValue_head v
  simp [he]

theorem parseValue_str (fuel len : Nat) (r : Bytes) :
    parseValue (fuel + 1) (0 :: len :: r) =
      if (r.take len).length = len then some (.vstr (r.take len), r.drop len)
      else none := rfl

theorem parseValue_bytes (fuel len : Nat) (r : Bytes) :
    parseValue (fuel + 1) (1 :: len :: r) =
      if (r.take len).length = len then some (.vbytes (r.take len), r.drop len)
      else none := rfl

theorem parseValue_int (fuel n : Nat) (r : Bytes) :
    parseValue (fuel + 1) (2 :: n :: r) = some (.vint (decInt n), r) := rfl

theorem parseValue_null (fuel : Nat) (r : Bytes) :
    parseValue (fuel + 1) (3 :: r) = some (.vnull, r) := rfl

theorem parseValue_seq (fuel : Nat) (r : Bytes) :
    parseValue (fuel + 1) (4 :: r) =
      match parseVList fuel r with
      | some (l, r1) => some (.vseq l, r1)
      | none => none := rfl

theorem parseValue_float (fuel a : Nat) (r : Bytes) :
    parseValue (fuel + 1) (6 :: a :: r) = some (.vfloat a, r) := rfl

theorem parseValue_map (fuel : Nat) (r : Bytes) :
    parseValue (fuel + 1) (5 :: r) =
      match parseVMap fuel r with
      | some (m, r1) => some (.vmap m, r1)
      | none => none := rfl

theorem parseVList_nine (fuel : Nat) (r : Bytes) :
    parseVList (fuel + 1) (9 :: r) = some (.nil, r) := rfl

theorem parseVList_cons (fuel t : Nat) (r : Bytes) (ht : t ≠ 9) :
    parseVList (fuel + 1) (t :: r) =
      match parseValue fuel (t :: r) with
      | some (v, r1) =>
        (match parseVList fuel r1 with
         | some (tl, r2) => some (.cons v tl, r2)
         | none => none)
      | none => none := by
  have h : parseVList (fuel + 1) (t :: r) =
      if t = 9 then some (.nil, r)
      else
        match parseValue fuel (t :: r) with
        | some (v, r1) =>
          (match parseVList fuel r1 with
           | some (tl, r2) => some (.cons v tl, r2)
           | none => none)
        | none => none := rfl
  rw [h, if_neg ht]

theorem parseVMap_nine (fuel : Nat) (r : Bytes) :
    parseVMap (fuel + 1) (9 :: r) = some (.nil, r) := rfl

theorem parseVMap_entry (fuel klen : Nat) (r : Bytes) :
    parseVMap (fuel + 1) (8 :: klen :: r) =
      (if (r.take klen).length = klen then
        match parseValue fuel (r.drop klen) with
        | some (v, r2) =>
          (match parseVMap fuel r2 with
           | some (tl, r3) => some (.cons (r.take klen) v tl, r3)
           | none => none)
        | none => none
      else none) := rfl

theorem parse_enc (fuel : Nat) :
    (∀ v : Value, depthValue v ≤ fuel → ∀ rest : Bytes,
      parseValue fuel (encValue v ++ rest) = some (v, rest)) ∧
    (∀ l : VList, depthVList l ≤ fuel → ∀ rest : Bytes,
      parseVList fuel (encVList l ++ rest) = some (l, rest)) ∧
    (∀ m : VMap, depthVMap m ≤ fuel → ∀ rest : Bytes,
      parseVMap fuel (encVMap m ++ rest) = some (m, rest)) := by
  induction fuel with
  | zero =>
    refine ⟨fun v hv _ => absurd hv ?_, fun l hl _ => absurd hl ?_,
            fun m hm _ => absurd hm ?_⟩
    · have := one_le_depthValue v; omega
    · have := one_le_depthVList l; omega
    · have := one_le_depthVMap m; omega
  | succ fuel ih =>
    obtain ⟨ihV, ihL, ihM⟩ := ih
    refine ⟨?_, ?_, ?_⟩
    · intro v hv rest
      cases v with
      | vstr s =>
        simp only [encValue, List.cons_append]
        rw [parseValue_str]
        simp [List.take_left, List.drop_left]
      | vbytes b =>
        simp only [encValue, List.cons_append]
        rw [parseValue_bytes]
        simp [List.take_left, List.drop_left]
      | vint n =>
        simp only [encValue, List.cons_append, List.nil_append]
        rw [parseValue_int, decInt_encInt]
      | vnull =>
        simp only [encValue, List.cons_append, List.nil_append]
        rw [parseValue_null]
      | vfloat a =>
        simp only [encValue, List.cons_append, List.nil_append]
        rw [parseValue_float]
      | vseq l =>
        have h : depthVList l ≤ fuel := by
          simp only [depthValue] at hv; omega
        simp only [encValue, List.cons_append]
        rw [parseValue_seq, ihL l h rest]
      | vmap m =>
        have h : depthVMap m ≤ fuel := by
          simp only [depthValue] at hv; omega
        simp only [encValue, List.cons_append]
        rw [parseValue_map, ihM m h rest]
    · intro l hl rest
      cases l with
      | nil =>
        simp only [encVList, List.cons_append, List.nil_append]
        rw [parseVList_nine]
      | cons v tl =>
        have hv1 : depthValue v ≤ fuel := by
          simp only [depthVList] at hl; omega
        have ht1 : depthVList tl ≤ fuel := by
          simp only [depthVList] at hl; omega
        obtain ⟨t, r, he, hle⟩ := encValue_head v
        simp only [encVList, List.append_assoc]
        rw [he, List.cons_append, parseVList_cons fuel t _ (by omega),
          ← List.cons_append, ← he, ihV v hv1 (encVList tl ++ rest)]
        simp [ihL tl ht1 rest]
    · intro m hm rest
      cases m with
      | nil =>
        simp only [encVMap, List.cons_append, List.nil_append]
        rw [parseVMap_nine]
      | cons k v tl =>
        have hv1 : depthValue v ≤ fuel := by
          simp only [depthVMap] at hm; omega
        have ht1 : depthVMap tl ≤ fuel := by
          simp only [depthVMap] at hm; omega
        simp only [encVMap, List.cons_append, List.append_assoc]
        rw [parseVMap_entry]
        rw [List.take_left, List.drop_left]
        rw [if_pos rfl]
        rw [ihV v hv1 (encVMap tl ++ rest)]
        simp [ihM tl ht1 rest]

theorem depth_le_len (n : Nat) :
    (∀ v : Value, depthValue v ≤ n → depthValue v ≤ (encValue v).length) ∧
    (∀ l : VList, depthVList l ≤ n → depthVList l ≤ (encVList l).length) ∧
    (∀ m : VMap, depthVMap m ≤ n → depthVMap m ≤ (encVMap m).length) := by
  induction n with
  | zero =>
    refine ⟨fun v hv => absurd hv ?_, fun l hl => absurd hl ?_,
            fun m hm => absurd hm ?_⟩
    · have := one_le_depthValue v; omega
    · have := one_le_depthVList l; omega
    · have := one_le_depthVMap m; omega
  | succ n ih =>
    obtain ⟨ihV, ihL, ihM⟩ := ih
    refine ⟨?_, ?_, ?_⟩
    · intro v hv
      cases v with
      | vstr s => simp [depthValue, encValue]
      | vbytes b => simp [depthValue, encValue]
      | vint k => simp [depthValue, encValue]
      | vnull => simp [depthValue, encValue]
      | vfloat a => simp [depthValue, encValue]
      | vseq l =>
        have h : depthVList l ≤ n := by simp only [depthValue] at hv; omega
        have := ihL l h
        simp only [depthValue, encValue, List.length_cons]
        omega
      | vmap m =>
        have h : depthVMap m ≤ n := by simp only [depthValue] at hv; omega
        have := ihM m h
        simp only [depthValue, encValue, List.length_cons]
        omega
    · intro l hl
      cases l with
      | nil => simp [depthVList, encVList]
      | cons v tl =>
        have hv1 : depthValue v ≤ n := by simp only [depthVList] at hl; omega
        have ht1 : depthVList tl ≤ n := by simp only [depthVList] at hl; omega
        have h1 := ihV v hv1
        have h2 := ihL tl ht1
        have h3 := one_le_depthValue v
        have h4 := one_le_depthVList tl
        simp only [depthVList, encVList, List.length_append]
        omega
    · intro m hm
      cases m with
      | nil => simp [depthVMap, encVMap]
      | cons k v tl =>
        have hv1 : depthValue v ≤ n := by simp only [depthVMap] at hm; omega
        have ht1 : depthVMap tl ≤ n := by simp only [depthVMap] at hm; omega
        have h1 := ihV v hv1
        have h2 := ihM tl ht1
        have h3 := one_le_depthValue v
        have h4 := one_le_depthVMap tl
        simp only [depthVMap, encVMap, List.length_cons, List.length_append]
        omega

theorem depthValue_le_length (v : Value) :
    depthValue v ≤ (encValue v).length :=
  (depth_le_len (depthValue v)).1 v le_rfl

/-- The modelled deserializer is the exact left inverse of the modelled
serializer. -/
theorem decValue_encValue (v : Value) : decValue (encValue v) = v := by
  unfold decValue
  have h := (parse_enc (encValue v).length).1 v (depthValue_le_length v) []
  rw [List.append_nil] at h
  rw [h]

/-- Tests whether an IEEE-754 binary64 bit pattern denotes a NaN: the
exponent field is all ones and the fraction field is nonzero. -/
def isNaNBits (a : Nat) : Bool :=
  decide ((a / 2 ^ 52) % 2 ^ 11 = 2 ^ 11 - 1) && decide (a % 2 ^ 52 ≠ 0)

/-- Tests whether a bit pattern denotes a zero (positive or negative):
everything below the sign bit is zero. -/
def isZeroBits (a : Nat) : Bool := decide (a % 2 ^ 63 = 0)

/-- IEEE-754 equality on binary64 bit patterns: a NaN compares unequal
to everything, itself included; positive and negative zero compare
equal; otherwise equality of patterns. -/
def floatEqBits (a b : Nat) : Bool :=
  if isNaNBits a || isNaNBits b then false
  else if isZeroBits a && isZeroBits b then true
  else a == b

/-- The bit pattern of the canonical quiet NaN, `float("nan")`. -/
def nanBits : Nat := 0x7FF8000000000000

mutual
/-- Modelled from the spec: Python `==` between a value and a
structurally distinct copy of it, as arises when a deserialized value
is compared with the pushed original (Python's identity shortcut for
container elements never fires between a value and its fresh copy, so
element comparison is always by `==`).  Floats compare by IEEE
equality; cross-type numeric equality (Python's `1 == 1.0`) is not
modelled because the codecs preserve the constructor, so a roundtrip
comparison never mixes constructors. -/
def pyEqValue : Value → Value → Bool
  | .vstr a, .vstr b => a == b
  | .vbytes a, .vbytes b => a == b
  | .vint a, .vint b => a == b
  | .vfloat a, .vfloat b => floatEqBits a b
  | .vnull, .vnull => true
  | .vseq a, .vseq b => pyEqVList a b
  | .vmap a, .vmap b => pyEqVMap a b
  | _, _ => false

/-- Python `==` on sequences of values, elementwise. -/
def pyEqVList : VList → VList → Bool
  | .nil, .nil => true
  | .cons v tl, .cons w tl2 => pyEqValue v w && pyEqVList tl tl2
  | _, _ => false

/-- Python `==` on mappings, field by field in order (the codecs
preserve field order, so roundtrip comparisons are order-aligned). -/
def pyEqVMap : VMap → VMap → Bool
  | .nil, .nil => true
  | .cons k v tl, .cons k2 w tl2 =>
    k == k2 && pyEqValue v w && pyEqVMap tl tl2
  | _, _ => false
end

mutual
/-- Tests that a value contains no NaN float anywhere. -/
def noNaNValue : Value → Bool
  | .vfloat a => !isNaNBits a
  | .vseq l => noNaNVList l
  | .vmap m => noNaNVMap m
  | _ => true

/-- Tests that a sequence contains no NaN float anywhere. -/
def noNaNVList : VList → Bool
  | .nil => true
  | .cons v tl => noNaNValue v && noNaNVList tl

/-- Tests that a mapping contains no NaN float anywhere. -/
def noNaNVMap : VMap → Bool
  | .nil => true
  | .cons _ v tl => noNaNValue v && noNaNVMap tl
end

theorem floatEqBits_self (a : Nat) :
    floatEqBits a a = !isNaNBits a := by
  unfold floatEqBits
  cases h : isNaNBits a with
  | true => simp [h]
  | false =>
    simp only [h, Bool.or_self, Bool.false_eq_true, if_false, Bool.not_false]
    cases hz : isZeroBits a with
    | true => simp [hz]
    | false => simp [hz]

/-- Comparing a value with an exact copy of itself by Python `==`
succeeds exactly when the value contains no NaN float. -/
theorem pyEq_self_eq_noNaN (n : Nat) :
    (∀ v : Value, depthValue v ≤ n → pyEqValue v v = noNaNValue v) ∧
    (∀ l : VList, depthVList l ≤ n → pyEqVList l l = noNaNVList l) ∧
    (∀ m : VMap, depthVMap m ≤ n → pyEqVMap m m = noNaNVMap m) := by
  induction n with
  | zero =>
    refine ⟨fun v hv => absurd hv ?_, fun l hl => absurd hl ?_,
            fun m hm => absurd hm ?_⟩
    · have := one_le_depthValue v; omega
    · have := one_le_depthVList l; omega
    · have := one_le_depthVMap m; omega
  | succ n ih =>
    obtain ⟨ihV, ihL, ihM⟩ := ih
    refine ⟨?_, ?_, ?_⟩
    · intro v hv
      cases v with
      | vstr s => simp [pyEqValue, noNaNValue]
      | vbytes b => simp [pyEqValue, noNaNValue]
      | vint k => simp [pyEqValue, noNaNValue]
      | vnull => simp [pyEqValue, noNaNValue]
      | vfloat a => simp [pyEqValue, noNaNValue, floatEqBits_self]
      | vseq l =>
        have h : depthVList l ≤ n := by simp only [depthValue] at hv; omega
        simp only [pyEqValue, noNaNValue]
        exact ihL l h
      | vmap m =>
        have h : depthVMap m ≤ n := by simp only [depthValue] at hv; omega
        simp only [pyEqValue, noNaNValue]
        exact ihM m h
    · intro l hl
      cases l with
      | nil => simp [pyEqVList, noNaNVList]
      | cons v tl =>
        have hv1 : depthValue v ≤ n := by simp only [depthVList] at hl; omega
        have ht1 : depthVList tl ≤ n := by simp only [depthVList] at hl; omega
        simp only [pyEqVList, noNaNVList, ihV v hv1, ihL tl ht1]
    · intro m hm
      cases m with
      | nil => simp [pyEqVMap, noNaNVMap]
      | cons k v tl =>
        have hv1 : depthValue v ≤ n := by simp only [depthVMap] at hm; omega
        have ht1 : depthVMap tl ≤ n := by simp only [depthVMap] at hm; omega
        simp only [pyEqVMap, noNaNVMap, ihV v hv1, ihM tl ht1]
        simp

theorem pyEqValue_self (v : Value) : pyEqValue v v = noNaNValue v :=
  (pyEq_self_eq_noNaN (depthValue v)).1 v le_rfl

/-- A filesystem path, modelled as its list of components. -/
abbrev FPath := List String

/-- Modelled from the spec: the directory state of a filesystem — the
set of existing directories, as component paths.  Only the operations
the provisioner uses (`os.path.exists`, `os.makedirs`) are modelled. -/
structure FS where
  dirs : List FPath

/-- `os.path.exists` on a directory path; on the empty path it is
always false, as CPython's `os.path.exists("")` is. -/
def FS.existsDir (fs : FS) (p : FPath) : Bool :=
  !p.isEmpty && decide (p ∈ fs.dirs)

/-- The nonempty prefixes of a path: the directory and all its
ancestors. -/
def ancestorsOf (p : FPath) : List FPath :=
  (List.range p.length).map (fun i => p.take (i + 1))

/-- Modelled from the spec: `os.makedirs(p, exist_ok=ok)` — creates the
directory and any missing ancestors; with `exist_ok=False` it raises
`FileExistsError` when the final directory already exists; on the empty
path it raises `FileNotFoundError` (as CPython does for
`os.makedirs("")`). -/
def FS.makedirs (fs : FS) (p : FPath) (existOk : Bool) : Except PyErr FS :=
  if p.isEmpty then .error (.fileNotFoundError "makedirs")
  else if fs.existsDir p && !existOk then .error (.fileExistsError p.toString)
  else .ok ⟨ancestorsOf p ++ fs.dirs⟩

/-- `_with_mkdir.DirectoriesCreated.__init__` (source lines 17-22), the
filesystem part: `dirname = os.path.dirname(path); if not
os.path.exists(dirname): os.makedirs(dirname, exist_ok=True)`.  The
dirname of a component path is the path without its final component. -/
def with_mkdir_open (fs : FS) (path : FPath) : Except PyErr FS :=
  let dirname := path.dropLast
  if fs.existsDir dirname then .ok fs
  else fs.makedirs dirname true

/-- Modelled from the spec: the durable medium behind disk stores — a
map from path to the persisted item sequence, newest binding first. -/
abbrev Disk := List (FPath × List Bytes)

/-- Looks a path up on the disk. -/
def Disk.find (d : Disk) (p : FPath) : Option (List Bytes) :=
  match d with
  | [] => none
  | (k, v) :: tl => if k = p then some v else Disk.find tl p

/-- Modelled from the spec: opening a disk store at a path resumes with
exactly the item sequence a previous lifetime persisted there (or empty
when the path is fresh), under the handle's fixed ordering mode. -/
def Disk.openStore (d : Disk) (p : FPath) (m : Mode) (sp : Bool) :
    Store Bytes :=
  { mode := m, supportsPeek := sp, items := (d.find p).getD [] }

/-- Modelled from the spec: closing a disk store persists its current
item sequence at its path. -/
def Disk.close (d : Disk) (p : FPath) (q : Store Bytes) : Disk :=
  (p, q.items) :: d

/-- An open disk-resident queue handle paired with the directory state
of the filesystem, making explicit which operations touch
directories. -/
structure DiskQueueState where
  fs : FS
  store : Store Bytes

/-- Push on an open disk queue: delegates to the serialization layer;
the source's push (lines 32-33) contains no filesystem call, so the
directory state passes through untouched. -/
def diskPush (c : Codec α) (s : DiskQueueState) (v : α) :
    Except PyErr Unit × DiskQueueState :=
  ((SerializationQueue.push c s.store v).1,
    ⟨s.fs, (SerializationQueue.push c s.store v).2⟩)

/-- Pop on an open disk queue: delegates to the serialization layer;
the source's pop (lines 35-37) contains no filesystem call, so the
directory state passes through untouched. -/
def diskPop (c : Codec α) (s : DiskQueueState) :
    Option α × DiskQueueState :=
  ((SerializationQueue.pop c s.store).1,
    ⟨s.fs, (SerializationQueue.pop c s.store).2⟩)

/-- A value the codec can encode: serialization succeeds with a truthy
(nonempty) byte string that deserializes back to the value. -/
def GoodVal (c : Codec α) (v : α) : Prop :=
  ∃ b, c.serialize v = .ok b ∧ b ≠ [] ∧ c.deserialize b = v

/-- The pop-side view of a stored byte string: falsy byte strings
collapse to the empty signal, truthy ones deserialize. -/
def popView (c : Codec α) (b : Bytes) : Option α :=
  if b.isEmpty then none else some (c.deserialize b)

theorem pushAll_eq (m : Mode) (sp : Bool) (L xs : List α) :
    Store.pushAll ⟨m, sp, L⟩ xs = ⟨m, sp, L ++ xs⟩ := by
  induction xs generalizing L with
  | nil => simp [Store.pushAll]
  | cons x xs ih =>
    show Store.pushAll (Store.push ⟨m, sp, L⟩ x) xs = _
    rw [Store.push]
    simp only []
    rw [ih (L ++ [x])]
    simp

theorem popN_fifo (sp : Bool) (L : List α) :
    Store.popN ⟨.fifo, sp, L⟩ L.length = (L, ⟨.fifo, sp, []⟩) := by
  induction L with
  | nil => simp [Store.popN]
  | cons x tl ih => simp [Store.popN, Store.rawPop, ih]

theorem popN_lifo_rev (sp : Bool) (R : List α) :
    Store.popN ⟨.lifo, sp, R.reverse⟩ R.length = (R, ⟨.lifo, sp, []⟩) := by
  induction R with
  | nil => simp [Store.popN]
  | cons x tl ih => simp [Store.popN, Store.rawPop, ih]

/-- Popping a store dry yields its items in the order dictated by the
ordering mode applied to the push order. -/
theorem popN_order (m : Mode) (sp : Bool) (L : List α) :
    Store.popN ⟨m, sp, L⟩ L.length = (order m L, ⟨m, sp, []⟩) := by
  cases m
  · exact popN_fifo sp L
  · have h := popN_lifo_rev sp L.reverse
    rw [List.reverse_reverse, List.length_reverse] at h
    exact h

theorem serPopN_fifo (c : Codec α) (sp : Bool) (L : List Bytes) :
    SerializationQueue.popN c ⟨.fifo, sp, L⟩ L.length =
      (L.map (popView c), ⟨.fifo, sp, []⟩) := by
  induction L with
  | nil => simp [SerializationQueue.popN]
  | cons x tl ih =>
    simp [SerializationQueue.popN, SerializationQueue.pop, Store.rawPop,
      ih, popView]

theorem serPopN_lifo_rev (c : Codec α) (sp : Bool) (R : List Bytes) :
    SerializationQueue.popN c ⟨.lifo, sp, R.reverse⟩ R.length =
      (R.map (popView c), ⟨.lifo, sp, []⟩) := by
  induction R with
  | nil => simp [SerializationQueue.popN]
  | cons x tl ih =>
    simp [SerializationQueue.popN, SerializationQueue.pop, Store.rawPop,
      ih, popView]

/-- Popping a serializing queue dry yields the popped views of its
stored byte strings in the order dictated by the ordering mode. -/
theorem serPopN_order (c : Codec α) (m : Mode) (sp : Bool)
    (L : List Bytes) :
    SerializationQueue.popN c ⟨m, sp, L⟩ L.length =
      ((order m L).map (popView c), ⟨m, sp, []⟩) := by
  cases m
  · exact serPopN_fifo c sp L
  · have h := serPopN_lifo_rev c sp L.reverse
    rw [List.reverse_reverse, List.length_reverse] at h
    exact h

/-- Pushing a list of encodable values succeeds and appends, per value,
one truthy byte string that deserializes back to it. -/
theorem serPushAll_ok (c : Codec α) (m : Mode) (sp : Bool) (V : List α)
    (h : ∀ v ∈ V, GoodVal c v) :
    ∀ L : List Bytes, ∃ B : List Bytes,
      SerializationQueue.pushAll c ⟨m, sp, L⟩ V = .ok ⟨m, sp, L ++ B⟩ ∧
      B.map (popView c) = V.map some := by
  induction V with
  | nil => intro L; exact ⟨[], by simp [SerializationQueue.pushAll], rfl⟩
  | cons v vs ih =>
    intro L
    obtain ⟨b, hs, hne, hd⟩ := h v (by simp)
    obtain ⟨B, hB, hBm⟩ := ih (fun w hw => h w (by simp [hw])) (L ++ [b])
    refine ⟨b :: B, ?_, ?_⟩
    · show (match SerializationQueue.push c ⟨m, sp, L⟩ v with
        | (.ok _, q1) => SerializationQueue.pushAll c q1 vs
        | (.error e, _) => .error e) = _
      rw [SerializationQueue.push, hs]
      simp only [Store.push]
      rw [hB]
      simp
    · simp only [List.map_cons, hBm, popView]
      rw [if_neg (by simp [hne])]
      rw [hd]

/-- The ordering mode commutes with mapping over the item list. -/
theorem order_map (m : Mode) (f : α → β) (L : List α) :
    order m (L.map f) = (order m L).map f := by
  cases m <;> simp [order]

/-- The serializing pop advances the store exactly as the raw store pop
does. -/
theorem serPop_snd (c : Codec α) (q : Store Bytes) :
    (SerializationQueue.pop c q).2 = (Store.rawPop q).2 := by
  rcases h : Store.rawPop q with ⟨s, q1⟩
  cases s <;> simp [SerializationQueue.pop, h]

/-- After `makedirs`, the directory and each of its ancestors exist. -/
theorem existsDir_after_makedirs (fs : FS) (p : FPath) (i : Nat)
    (hi : i < p.length) :
    FS.existsDir ⟨ancestorsOf p ++ fs.dirs⟩ (p.take (i + 1)) = true := by
  have hp : p ≠ [] := by
    intro hp
    rw [hp] at hi
    simp at hi
  have hne : (p.take (i + 1)).isEmpty = false := by
    simp [List.take_eq_nil_iff, hp]
  simp only [FS.existsDir, hne, Bool.not_false, Bool.true_and,
    decide_eq_true_iff, List.mem_append]
  left
  simp only [ancestorsOf, List.mem_map, List.mem_range]
  exact ⟨i, hi, rfl⟩

/-- A concrete codec on naturals used to instantiate generic theorems. -/
def natCodec : Codec Nat :=
  { serialize := fun n => .ok [n + 1],
    deserialize := fun b => b.headD 1 - 1 }

/-- A concrete codec on raw records (modelled as lists of naturals)
used to instantiate the adapter theorems: serialization prepends a tag
byte, so every record, the empty one included, serializes to truthy
bytes. -/
def bytesCodec : Codec (List Nat) :=
  { serialize := fun r => .ok (0 :: r),
    deserialize := fun b => b.drop 1 }

/-- A concrete converter whose `fromRecord` always raises `TypeError`,
modelling a corrupt on-disk record. -/
def badConv : Conv Nat (List Nat) :=
  { toRecord := fun n => [n],
    fromRecord := fun _ => .error (.typeError "bad record"),
    falsy := fun r => r.isEmpty }

/-- A concrete converter mapping a natural to a record of that length;
the empty record is falsy, as an empty Python dict is. -/
def lenConv : Conv Nat (List Nat) :=
  { toRecord := fun n => List.replicate n 1,
    fromRecord := fun r => .ok r.length,
    falsy := fun r => r.isEmpty }

/-- A concrete converter whose `toRecord` produces the falsy empty
record for every item. -/
def emptyRecConv : Conv Nat (List Nat) :=
  { toRecord := fun _ => [],
    fromRecord := fun _ => .ok 7,
    falsy := fun r => r.isEmpty }

/-- C1: for every queue handle, a sequence of values pushed with no
intervening pops is returned by the subsequent pops exactly in the order
dictated by the handle's ordering mode — push order for FIFO, reverse
push order for LIFO; for a memory store the pushed objects themselves
are returned, and for a disk queue the pushes of a previous process
lifetime are included when the queue is reopened at the same path. -/
theorem c1_push_pop_ordering (β : Type) (c : Codec α) (m : Mode)
    (sp : Bool) (M : List β) (V1 V2 : List α) (d : Disk) (p : FPath)
    (hfresh : d.find p = none)
    (hgood : ∀ v ∈ V1 ++ V2, GoodVal c v) :
    Store.popN (Store.pushAll ⟨m, sp, ([] : List β)⟩ M) M.length
      = (order m M, ⟨m, sp, []⟩) ∧
    ∃ q1 q2 : Store Bytes,
      SerializationQueue.pushAll c (d.openStore p m sp) V1 = .ok q1 ∧
      SerializationQueue.pushAll c ((d.close p q1).openStore p m sp) V2
        = .ok q2 ∧
      (SerializationQueue.popN c q2 (V1.length + V2.length)).1
        = (order m (V1 ++ V2)).map some := by
  constructor
  · rw [pushAll_eq]
    simp only [List.nil_append]
    exact popN_order m sp M
  · have hg1 : ∀ v ∈ V1, GoodVal c v := fun v hv => hgood v (by simp [hv])
    have hg2 : ∀ v ∈ V2, GoodVal c v := fun v hv => hgood v (by simp [hv])
    obtain ⟨B1, hB1, hB1m⟩ := serPushAll_ok c m sp V1 hg1 []
    have hopen1 : d.openStore p m sp = ⟨m, sp, []⟩ := by
      simp [Disk.openStore, hfresh]
    obtain ⟨B2, hB2, hB2m⟩ := serPushAll_ok c m sp V2 hg2 B1
    have hopen2 : (d.close p ⟨m, sp, [] ++ B1⟩).openStore p m sp
        = ⟨m, sp, B1⟩ := by
      simp [Disk.openStore, Disk.close, Disk.find]
    refine ⟨⟨m, sp, [] ++ B1⟩, ⟨m, sp, B1 ++ B2⟩, ?_, ?_, ?_⟩
    · rw [hopen1, hB1]
    · rw [hopen2, hB2]
    · have hlen1 : B1.length = V1.length := by
        have := congrArg List.length hB1m
        simpa using this
      have hlen2 : B2.length = V2.length := by
        have := congrArg List.length hB2m
        simpa using this
      have hlen : V1.length + V2.length = (B1 ++ B2).length := by
        simp [hlen1, hlen2]
      rw [hlen, serPopN_order]
      show ((order m (B1 ++ B2)).map (popView c)) = _
      rw [← order_map, List.map_append, hB1m, hB2m, ← List.map_append,
        order_map]

/-- Witness for C1 at a concrete codec, mode and value lists, with a
close and reopen of the disk path between the two push batches. -/
theorem c1_push_pop_ordering_witness :
    Store.popN (Store.pushAll ⟨Mode.fifo, true, ([] : List Nat)⟩ [7, 8]) 2
      = (order .fifo [7, 8], ⟨.fifo, true, []⟩) ∧
    ∃ q1 q2 : Store Bytes,
      SerializationQueue.pushAll natCodec
        (Disk.openStore [] ["tmp", "q"] .fifo true) [2, 3] = .ok q1 ∧
      SerializationQueue.pushAll natCodec
        ((Disk.close [] ["tmp", "q"] q1).openStore ["tmp", "q"] .fifo true)
        [4] = .ok q2 ∧
      (SerializationQueue.popN natCodec q2 (2 + 1)).1
        = (order .fifo ([2, 3] ++ [4])).map some :=
  c1_push_pop_ordering Nat natCodec .fifo true [7, 8] [2, 3] [4] []
    ["tmp", "q"] rfl
    (by
      intro v hv
      exact ⟨[v + 1], rfl, by simp, by simp [natCodec]⟩)

/-- C4 amended: for every value the modelled structured-object codec
can encode, floats included bit-for-bit, deserializing its
serialization returns the value itself — the exact left inverse at the
representation level — and a pop following a push of the value on an
empty queue returns it; the Python `==` comparison of the result with
the pushed value holds exactly when the value contains no NaN float,
a NaN comparing unequal to its restored copy under IEEE equality. -/
theorem c4_roundtrip (v : Value) (m : Mode) (sp : Bool) :
    valueCodec.serialize v = .ok (encValue v) ∧
    valueCodec.deserialize (encValue v) = v ∧
    pyEqValue (valueCodec.deserialize (encValue v)) v = noNaNValue v ∧
    SerializationQueue.push valueCodec ⟨m, sp, []⟩ v
      = (.ok (), ⟨m, sp, [encValue v]⟩) ∧
    SerializationQueue.pop valueCodec ⟨m, sp, [encValue v]⟩
      = (some v, ⟨m, sp, []⟩) := by
  refine ⟨rfl, decValue_encValue v, ?_, ?_, ?_⟩
  · show pyEqValue (decValue (encValue v)) v = noNaNValue v
    rw [decValue_encValue v, pyEqValue_self v]
  · simp [SerializationQueue.push, valueCodec, valueSerialize, Store.push]
  · have hne : (encValue v).isEmpty = false := by
      simp [encValue_ne_nil v]
    cases m <;>
      simp [SerializationQueue.pop, Store.rawPop, hne, valueCodec,
        decValue_encValue v]

/-- Counterexample for C4: the canonical quiet NaN is encodable by the
modelled structured-object codec — serialization succeeds and
deserializing the produced bytes restores the identical bit pattern —
yet the Python `==` comparison of the deserialized value with the
original is False, NaN being unequal even to an exact copy of itself
under IEEE equality, so `deserialize(serialize(v)) == v` fails at this
encodable value. -/
theorem c4_counterexample :
    valueCodec.serialize (.vfloat nanBits) = .ok [6, nanBits] ∧
    valueCodec.deserialize [6, nanBits] = .vfloat nanBits ∧
    pyEqValue (valueCodec.deserialize [6, nanBits]) (.vfloat nanBits)
      = false := by
  refine ⟨rfl, rfl, ?_⟩
  show pyEqValue (.vfloat nanBits) (.vfloat nanBits) = false
  decide

/-- C7: popping an empty queue — raw store, serializing queue, or
record-adapted queue — returns the empty signal without an exception
and leaves the state exactly as it was. -/
theorem c7_empty_pop (β ι ρ : Type) (c : Codec α) (cr : Codec ρ)
    (cv : Conv ι ρ) (m : Mode) (sp : Bool) :
    Store.rawPop (⟨m, sp, []⟩ : Store β) = (none, ⟨m, sp, []⟩) ∧
    SerializationQueue.pop c ⟨m, sp, []⟩ = (none, ⟨m, sp, []⟩) ∧
    DiskRequestQueue.pop cr cv ⟨m, sp, []⟩ = (.ok none, ⟨m, sp, []⟩) := by
  refine ⟨?_, ?_, ?_⟩ <;>
    cases m <;>
      simp [Store.rawPop, SerializationQueue.pop, DiskRequestQueue.pop]

/-- C2: when the pickle codec cannot encode a value — `pickle.dumps`
raises one of the failure classes the source catches — push fails
atomically with a `ValueError` carrying the original cause, and the
backing store's contents (hence its length) are unchanged. -/
theorem c2_serialization_error_atomic (dumps : α → Except PyErr Bytes)
    (loads : Bytes → α) (q : Store Bytes) (obj : α) (e : PyErr)
    (he : dumps obj = .error e) (hc : e.isPickleCaught = true) :
    SerializationQueue.push (pickleCodec dumps loads) q obj
      = (.error (.valueError e.str (some e)), q) ∧
    ((SerializationQueue.push (pickleCodec dumps loads) q obj).2).items
      = q.items := by
  have h : SerializationQueue.push (pickleCodec dumps loads) q obj
      = (.error (.valueError e.str (some e)), q) := by
    simp [SerializationQueue.push, pickleCodec, pickle_serialize, he, hc]
  exact ⟨h, by rw [h]⟩

/-- Witness for C2 at a concrete unpicklable object. -/
theorem c2_serialization_error_atomic_witness :
    SerializationQueue.push
      (pickleCodec (fun _ : Unit => .error (.picklingError "unpicklable"))
        (fun _ => ()))
      ⟨.fifo, true, [[1]]⟩ ()
      = (.error (.valueError "unpicklable"
          (some (.picklingError "unpicklable"))), ⟨.fifo, true, [[1]]⟩) ∧
    ((SerializationQueue.push
      (pickleCodec (fun _ : Unit => .error (.picklingError "unpicklable"))
        (fun _ => ()))
      ⟨.fifo, true, [[1]]⟩ ()).2).items = [[1]] :=
  c2_serialization_error_atomic
    (fun _ : Unit => .error (.picklingError "unpicklable")) (fun _ => ())
    ⟨.fifo, true, [[1]]⟩ () (.picklingError "unpicklable") rfl rfl

/-- C10: the `ValueError` wrapping applies exactly when `pickle.dumps`
raises `PicklingError`, `AttributeError` or `TypeError`; any other
exception from it, and every failure of `marshal.dumps`, reaches the
pusher unwrapped. -/
theorem c10_wrapping_scope (dumps : α → Except PyErr Bytes)
    (mdumps : β → Except PyErr Bytes) (mloads : Bytes → β)
    (o1 o2 : α) (o3 : β) (e1 e2 e3 : PyErr) (q : Store Bytes)
    (h1 : dumps o1 = .error e1) (hc1 : e1.isPickleCaught = true)
    (h2 : dumps o2 = .error e2) (hc2 : e2.isPickleCaught = false)
    (h3 : mdumps o3 = .error e3) :
    pickle_serialize dumps o1 = .error (.valueError e1.str (some e1)) ∧
    pickle_serialize dumps o2 = .error e2 ∧
    SerializationQueue.push (marshalCodec mdumps mloads) q o3
      = (.error e3, q) := by
    refine ⟨?_, ?_, ?_⟩
    · simp [pickle_serialize, h1, hc1]
    · simp [pickle_serialize, h2, hc2]
    · simp [SerializationQueue.push, marshalCodec, h3]

/-- Witness for C10: an `AttributeError` from `pickle.dumps` is
wrapped, a `RecursionError`-like exception is not, and a `ValueError`
from `marshal.dumps` propagates unwrapped through push. -/
theorem c10_wrapping_scope_witness :
    pickle_serialize
      (fun b : Bool => if b then .error (.attributeError "getstate")
        else .error (.otherError "recursion limit"))
      true
      = .error (.valueError "getstate" (some (.attributeError "getstate"))) ∧
    pickle_serialize
      (fun b : Bool => if b then .error (.attributeError "getstate")
        else .error (.otherError "recursion limit"))
      false
      = .error (.otherError "recursion limit") ∧
    SerializationQueue.push
      (marshalCodec (fun _ : Unit => .error (.valueError "unmarshallable" none))
        (fun _ => ()))
      ⟨.lifo, true, []⟩ ()
      = (.error (.valueError "unmarshallable" none), ⟨.lifo, true, []⟩) :=
  c10_wrapping_scope
    (fun b : Bool => if b then .error (.attributeError "getstate")
      else .error (.otherError "recursion limit"))
    (fun _ : Unit => .error (.valueError "unmarshallable" none))
    (fun _ => ()) true false () (.attributeError "getstate")
    (.otherError "recursion limit") (.valueError "unmarshallable" none)
    ⟨.lifo, true, []⟩ rfl rfl rfl rfl rfl

/-- C8: peek on a store whose class does not implement it fails with
`NotImplementedError` — at the serialization layer and at the memory
layer alike — and never touches an item; on a store that does support
it, peek returns the item the next pop would return, without removing
it (peek takes no store to a new state: its type returns no store). -/
theorem c8_peek (c : Codec α) (m : Mode) (L : List Bytes) (b : Bytes)
    (x : β) (Lm : List β)
    (hb : (Store.rawPop (⟨m, true, L⟩ : Store Bytes)).1 = some b)
    (hne : b ≠ [])
    (hx : (Store.rawPop (⟨m, true, Lm⟩ : Store β)).1 = some x) :
    SerializationQueue.peek c ⟨m, false, L⟩
      = .error (.notImplementedError
          "The underlying queue class does not implement peek") ∧
    MemoryQueue.peek (⟨m, false, Lm⟩ : Store β)
      = .error (.notImplementedError
          "The underlying queue class does not implement peek") ∧
    SerializationQueue.peek c ⟨m, true, L⟩ = .ok (some (c.deserialize b)) ∧
    MemoryQueue.peek (⟨m, true, Lm⟩ : Store β) = .ok (some x) := by
  refine ⟨?_, ?_, ?_, ?_⟩
  · simp [SerializationQueue.peek, Store.rawPeek]
  · simp [MemoryQueue.peek, Store.rawPeek]
  · simp [SerializationQueue.peek, Store.rawPeek, hb, hne]
  · simp [MemoryQueue.peek, Store.rawPeek, hx]

/-- Witness for C8 at concrete stores holding one item each. -/
theorem c8_peek_witness :
    SerializationQueue.peek natCodec ⟨.fifo, false, [[8]]⟩
      = .error (.notImplementedError
          "The underlying queue class does not implement peek") ∧
    MemoryQueue.peek (⟨.fifo, false, [5]⟩ : Store Nat)
      = .error (.notImplementedError
          "The underlying queue class does not implement peek") ∧
    SerializationQueue.peek natCodec ⟨.fifo, true, [[8]]⟩
      = .ok (some (natCodec.deserialize [8])) ∧
    MemoryQueue.peek (⟨.fifo, true, [5]⟩ : Store Nat) = .ok (some 5) :=
  c8_peek natCodec .fifo [[8]] [8] 5 [5] rfl (by simp) rfl

/-- C9: pop and peek of the serializing layer return the empty signal
for any falsy stored byte string, and the adapter's pop returns the
empty signal for any falsy record, so a falsy stored item is
indistinguishable at the public interface from an empty queue. -/
theorem c9_falsy_collapse (c : Codec α) (cr : Codec ρ) (cv : Conv ι ρ)
    (m : Mode) (L : List Bytes) (q1 q0 q0p : Store Bytes) (r rp : ρ)
    (hhead : Store.rawPop (⟨m, true, L⟩ : Store Bytes) = (some [], q1))
    (hser : (SerializationQueue.pop cr q0).1 = some r)
    (hfalsy : cv.falsy r = true)
    (hserpk : SerializationQueue.peek cr q0p = .ok (some rp))
    (hfalsyp : cv.falsy rp = true) :
    SerializationQueue.pop c ⟨m, true, L⟩ = (none, q1) ∧
    (SerializationQueue.pop c ⟨m, true, L⟩).1
      = (SerializationQueue.pop c (⟨m, true, []⟩ : Store Bytes)).1 ∧
    SerializationQueue.peek c ⟨m, true, L⟩ = .ok none ∧
    (DiskRequestQueue.pop cr cv q0).1 = .ok none ∧
    DiskRequestQueue.peek cr cv q0p = .ok none := by
  have hpop : SerializationQueue.pop c ⟨m, true, L⟩ = (none, q1) := by
    simp [SerializationQueue.pop, hhead]
  refine ⟨hpop, ?_, ?_, ?_, ?_⟩
  · rw [hpop]
    cases m <;> simp [SerializationQueue.pop, Store.rawPop]
  · simp [SerializationQueue.peek, Store.rawPeek, hhead]
  · have hq0 : SerializationQueue.pop cr q0
        = (some r, (SerializationQueue.pop cr q0).2) := by
      rw [← hser]
    rw [DiskRequestQueue.pop, hq0]
    simp [hfalsy]
  · rw [DiskRequestQueue.peek, hserpk]
    simp [hfalsyp]

/-- Witness for C9: a store holding one empty byte string, and an
adapter store whose record deserializes to the falsy empty record,
popped and peeked. -/
theorem c9_falsy_collapse_witness :
    SerializationQueue.pop natCodec ⟨.fifo, true, [[]]⟩
      = (none, ⟨.fifo, true, []⟩) ∧
    (SerializationQueue.pop natCodec ⟨.fifo, true, [[]]⟩).1
      = (SerializationQueue.pop natCodec
          (⟨.fifo, true, []⟩ : Store Bytes)).1 ∧
    SerializationQueue.peek natCodec ⟨.fifo, true, [[]]⟩ = .ok none ∧
    (DiskRequestQueue.pop bytesCodec emptyRecConv ⟨.fifo, true, [[0]]⟩).1
      = .ok none ∧
    DiskRequestQueue.peek bytesCodec emptyRecConv ⟨.fifo, true, [[0]]⟩
      = .ok none :=
  c9_falsy_collapse natCodec bytesCodec emptyRecConv .fifo [[]]
    ⟨.fifo, true, []⟩ ⟨.fifo, true, [[0]]⟩ ⟨.fifo, true, [[0]]⟩ [] []
    rfl rfl rfl rfl rfl

/-- Counterexample for C3: on a store holding one record whose
conversion raises `TypeError`, the adapter's pop surfaces exactly that
`TypeError` — not an error of the spec's distinct
`RecordConversionError` class, contradicting the claim that the failure
is propagated as a `RecordConversionError` rather than the raw
underlying exception. -/
theorem c3_counterexample :
    (DiskRequestQueue.pop bytesCodec badConv ⟨.fifo, true, [[0, 7]]⟩).1
      = .error (.typeError "bad record") ∧
    (PyErr.typeError "bad record").isRecordConversionError = false :=
  ⟨rfl, rfl⟩

/-- C3 amended: when the injected `fromRecord` raises on a malformed
record, the adapter's pop propagates that raised exception itself,
unwrapped, never silently dropping the item; the offending slot is
consumed — the adapter's post-state is the raw store with the slot
removed — so a corrupt record cannot repeatedly block a pop loop; peek
propagates the raw exception the same way. -/
theorem c3_raw_propagation (cr : Codec ρ) (cv : Conv ι ρ)
    (q : Store Bytes) (r rp : ρ) (e ep : PyErr)
    (hr : (SerializationQueue.pop cr q).1 = some r)
    (ht : cv.falsy r = false)
    (he : cv.fromRecord r = .error e)
    (hpk : SerializationQueue.peek cr q = .ok (some rp))
    (htp : cv.falsy rp = false)
    (hep : cv.fromRecord rp = .error ep) :
    DiskRequestQueue.pop cr cv q = (.error e, (Store.rawPop q).2) ∧
    DiskRequestQueue.peek cr cv q = .error ep := by
  constructor
  · have hq : SerializationQueue.pop cr q
        = (some r, (SerializationQueue.pop cr q).2) := by
      rw [← hr]
    rw [DiskRequestQueue.pop, hq]
    simp [ht, he, serPop_snd]
  · rw [DiskRequestQueue.peek, hpk]
    simp [htp, hep]

/-- Witness for the amended C3 at a concrete corrupt record. -/
theorem c3_raw_propagation_witness :
    DiskRequestQueue.pop bytesCodec badConv ⟨.fifo, true, [[0, 7]]⟩
      = (.error (.typeError "bad record"),
         (Store.rawPop (⟨.fifo, true, [[0, 7]]⟩ : Store Bytes)).2) ∧
    DiskRequestQueue.peek bytesCodec badConv ⟨.fifo, true, [[0, 7]]⟩
      = .error (.typeError "bad record") :=
  c3_raw_propagation bytesCodec badConv ⟨.fifo, true, [[0, 7]]⟩ [7] [7]
    (.typeError "bad record") (.typeError "bad record") rfl rfl rfl rfl
    rfl rfl

/-- Counterexample for C5: with an injected `toRecord` that produces
the falsy empty record, after a push the serializing queue's pop yields
that record (not the empty signal) and `fromRecord` maps it to a work
item, yet the adapter's pop returns the empty signal — so pop does not
equal `fromRecord` applied to the serializing queue's pop. -/
theorem c5_counterexample :
    DiskRequestQueue.push bytesCodec emptyRecConv ⟨.fifo, true, []⟩ 5
      = (.ok (), ⟨.fifo, true, [[0]]⟩) ∧
    (SerializationQueue.pop bytesCodec ⟨.fifo, true, [[0]]⟩).1
      = some ([] : List Nat) ∧
    emptyRecConv.fromRecord [] = .ok 7 ∧
    (DiskRequestQueue.pop bytesCodec emptyRecConv ⟨.fifo, true, [[0]]⟩).1
      = .ok none ∧
    (Except.ok (some 7) : Except PyErr (Option Nat)) ≠ .ok none :=
  ⟨rfl, rfl, rfl, rfl, by simp⟩

/-- C5 amended: the adapter's push equals the serializing queue's push
of the converted record; its pop equals `fromRecord` of the serializing
pop's record when that record is truthy, and the empty signal when the
serializing pop yields the empty signal or a falsy record; peek follows
the same pattern without removal. -/
theorem c5_adapter_composition (cr : Codec ρ) (cv : Conv ι ρ)
    (q qe qf qp qpe qpf : Store Bytes) (item : ι) (r rf rp rpf : ρ)
    (hr : (SerializationQueue.pop cr q).1 = some r)
    (ht : cv.falsy r = false)
    (he : (SerializationQueue.pop cr qe).1 = none)
    (hf : (SerializationQueue.pop cr qf).1 = some rf)
    (hff : cv.falsy rf = true)
    (hpk : SerializationQueue.peek cr qp = .ok (some rp))
    (htp : cv.falsy rp = false)
    (hpe : SerializationQueue.peek cr qpe = .ok none)
    (hpf : SerializationQueue.peek cr qpf = .ok (some rpf))
    (hpff : cv.falsy rpf = true) :
    DiskRequestQueue.push cr cv q item
      = SerializationQueue.push cr q (cv.toRecord item) ∧
    (DiskRequestQueue.pop cr cv q).1 = (cv.fromRecord r).map some ∧
    (DiskRequestQueue.pop cr cv qe).1 = .ok none ∧
    (DiskRequestQueue.pop cr cv qf).1 = .ok none ∧
    DiskRequestQueue.peek cr cv qp = (cv.fromRecord rp).map some ∧
    DiskRequestQueue.peek cr cv qpe = .ok none ∧
    DiskRequestQueue.peek cr cv qpf = .ok none := by
  refine ⟨rfl, ?_, ?_, ?_, ?_, ?_, ?_⟩
  · have hq : SerializationQueue.pop cr q
        = (some r, (SerializationQueue.pop cr q).2) := by
      rw [← hr]
    rw [DiskRequestQueue.pop, hq]
    rcases hfr : cv.fromRecord r with e | it <;> simp [ht, hfr, Except.map]
  · have hq : SerializationQueue.pop cr qe
        = (none, (SerializationQueue.pop cr qe).2) := by
      rw [← he]
    rw [DiskRequestQueue.pop, hq]
  · have hq : SerializationQueue.pop cr qf
        = (some rf, (SerializationQueue.pop cr qf).2) := by
      rw [← hf]
    rw [DiskRequestQueue.pop, hq]
    simp [hff]
  · rw [DiskRequestQueue.peek, hpk]
    rcases hfr : cv.fromRecord rp with e | it <;> simp [htp, hfr, Except.map]
  · rw [DiskRequestQueue.peek, hpe]
  · rw [DiskRequestQueue.peek, hpf]
    simp [hpff]

/-- Witness for the amended C5 at concrete stores exercising the
truthy, empty-signal and falsy-record cases of both pop and peek. -/
theorem c5_adapter_composition_witness :
    DiskRequestQueue.push bytesCodec lenConv ⟨.fifo, true, [[0, 1]]⟩ 2
      = SerializationQueue.push bytesCodec ⟨.fifo, true, [[0, 1]]⟩
          (lenConv.toRecord 2) ∧
    (DiskRequestQueue.pop bytesCodec lenConv ⟨.fifo, true, [[0, 1]]⟩).1
      = (lenConv.fromRecord [1]).map some ∧
    (DiskRequestQueue.pop bytesCodec lenConv
      (⟨.fifo, true, []⟩ : Store Bytes)).1 = .ok none ∧
    (DiskRequestQueue.pop bytesCodec lenConv ⟨.fifo, true, [[0]]⟩).1
      = .ok none ∧
    DiskRequestQueue.peek bytesCodec lenConv ⟨.fifo, true, [[0, 1]]⟩
      = (lenConv.fromRecord [1]).map some ∧
    DiskRequestQueue.peek bytesCodec lenConv
      (⟨.fifo, true, []⟩ : Store Bytes) = .ok none ∧
    DiskRequestQueue.peek bytesCodec lenConv ⟨.fifo, true, [[0]]⟩
      = .ok none :=
  c5_adapter_composition bytesCodec lenConv ⟨.fifo, true, [[0, 1]]⟩
    ⟨.fifo, true, []⟩ ⟨.fifo, true, [[0]]⟩ ⟨.fifo, true, [[0, 1]]⟩
    ⟨.fifo, true, []⟩ ⟨.fifo, true, [[0]]⟩ 2 [1] [] [1] [] rfl rfl rfl
    rfl rfl rfl rfl rfl rfl rfl

/-- Counterexample for C6: opening a disk queue at a bare filename
path — one with an empty directory part — does not ensure an existing
parent directory; it fails with `FileNotFoundError`, exactly as
CPython does there (`os.path.dirname("queue.db")` is `""`,
`os.path.exists("")` is false, and `os.makedirs("", exist_ok=True)`
raises `FileNotFoundError`), contradicting the claim that opening
always first ensures the parent directory exists and that the creation
never fails. -/
theorem c6_counterexample :
    with_mkdir_open ⟨[]⟩ ["queue.db"]
      = .error (.fileNotFoundError "makedirs") := rfl

/-- C6 amended: for every path with a nonempty directory part, opening
a disk-backed queue first ensures the parent directory exists,
creating it and any missing ancestors if absent; the provisioning
never fails, in particular not because the directory already exists: a
repeat run (or a run after another queue created the directory)
succeeds and changes nothing, and `os.makedirs` with `exist_ok`
succeeds even when the directory appeared after the existence check;
provisioning happens only at queue-open time — push and pop pass the
directory state through untouched; for a bare filename path the open
instead fails with `FileNotFoundError`. -/
theorem c6_provisioning (fs fs2 : FS) (path : FPath) (i : Nat)
    (cq : Codec γ) (s : DiskQueueState) (v : γ)
    (h : path.dropLast ≠ [])
    (hnotex : fs.existsDir path.dropLast = false)
    (hi : i < path.dropLast.length)
    (hex : fs2.existsDir path.dropLast = true) :
    (∃ fs1 : FS, with_mkdir_open fs path = .ok fs1 ∧
      fs1.existsDir path.dropLast = true ∧
      fs1.existsDir (path.dropLast.take (i + 1)) = true ∧
      with_mkdir_open fs1 path = .ok fs1) ∧
    with_mkdir_open fs2 path = .ok fs2 ∧
    fs2.makedirs path.dropLast true
      = .ok ⟨ancestorsOf path.dropLast ++ fs2.dirs⟩ ∧
    (diskPush cq s v).2.fs = s.fs ∧
    (diskPop cq s).2.fs = s.fs := by
  refine ⟨?_, ?_, ?_, rfl, rfl⟩
  · refine ⟨⟨ancestorsOf path.dropLast ++ fs.dirs⟩, ?_, ?_, ?_, ?_⟩
    · rw [with_mkdir_open]
      simp only [hnotex, Bool.false_eq_true, if_false]
      rw [FS.makedirs, if_neg (by simp [h]), if_neg (by simp [hnotex])]
    · have := existsDir_after_makedirs fs path.dropLast
        (path.dropLast.length - 1) (by omega)
      rwa [Nat.sub_add_cancel (by omega), List.take_length] at this
    · exact existsDir_after_makedirs fs path.dropLast i hi
    · rw [with_mkdir_open]
      have := existsDir_after_makedirs fs path.dropLast
        (path.dropLast.length - 1) (by omega)
      rw [Nat.sub_add_cancel (by omega), List.take_length] at this
      simp only [this, if_true]
  · rw [with_mkdir_open]
    simp only [hex, if_true]
  · rw [FS.makedirs, if_neg (by simp [h])]
    simp

/-- Witness for C6: two sibling queue paths under a missing parent —
the first open provisions the shared parent, the second open finds it —
and a push and a pop on an open queue that leave the directory state
untouched. -/
theorem c6_provisioning_witness :
    (∃ fs1 : FS, with_mkdir_open ⟨[]⟩ ["crawls", "q1", "data"] = .ok fs1 ∧
      fs1.existsDir ["crawls", "q1"] = true ∧
      fs1.existsDir (["crawls", "q1"].take 1) = true ∧
      with_mkdir_open fs1 ["crawls", "q1", "data"] = .ok fs1) ∧
    with_mkdir_open ⟨[["crawls", "q1"], ["crawls"]]⟩
      ["crawls", "q1", "data"] = .ok ⟨[["crawls", "q1"], ["crawls"]]⟩ ∧
    FS.makedirs ⟨[["crawls", "q1"], ["crawls"]]⟩ ["crawls", "q1"] true
      = .ok ⟨ancestorsOf ["crawls", "q1"]
          ++ [["crawls", "q1"], ["crawls"]]⟩ ∧
    (diskPush natCodec ⟨⟨[["crawls"]]⟩, ⟨.fifo, true, [[2]]⟩⟩ 3).2.fs
      = (⟨⟨[["crawls"]]⟩, ⟨.fifo, true, [[2]]⟩⟩ : DiskQueueState).fs ∧
    (diskPop natCodec ⟨⟨[["crawls"]]⟩, ⟨.fifo, true, [[2]]⟩⟩).2.fs
      = (⟨⟨[["crawls"]]⟩, ⟨.fifo, true, [[2]]⟩⟩ : DiskQueueState).fs :=
  c6_provisioning ⟨[]⟩ ⟨[["crawls", "q1"], ["crawls"]]⟩
    ["crawls", "q1", "data"] 0 natCodec
    ⟨⟨[["crawls"]]⟩, ⟨.fifo, true, [[2]]⟩⟩ 3 (by simp) (by decide)
    (by simp) (by decide)

end Squeues

